import Mathlib

/-!
Verification development for the scp-scraper repository.

The two Python modules `scp_parser.py` and `temp_scraper.py` are shallowly
embedded below.  Strings are modelled as Lean `String`s and most text
processing is carried out on their underlying `List Char`; Python dicts are
modelled as insertion-ordered association lists with in-place update
(`pySet`).  Python's falsiness test on field values is modelled by `pyTruthy`.
Character-level conventions: Python's `str.lower()` / `re.IGNORECASE` are
modelled by ASCII case folding (`lowerChar`; the CJK text this program handles
has no case), Python's `\s` / `str.strip()` whitespace class by `isPySpace`
(ASCII whitespace plus the common Unicode space code points), and the
character class `\w一-鿿` of the fallback-key transform by
`isKeepChar` (ASCII word characters plus the CJK unified-ideograph block that
the synonym table and the scraped pages use).
-/

set_option maxHeartbeats 2000000
set_option maxRecDepth 4000

/-- Whitespace class: models Python's `\s` and the default `str.strip()` set
for the text this program processes. -/
def isPySpace (c : Char) : Bool :=
  c = ' ' || c = '\t' || c = '\n' || c = '\r' || c.toNat = 11 || c.toNat = 12 ||
  c.toNat = 0x85 || c.toNat = 0xa0 || c.toNat = 0x1680 ||
  (0x2000 ≤ c.toNat && c.toNat ≤ 0x200a) || c.toNat = 0x2028 || c.toNat = 0x2029 ||
  c.toNat = 0x202f || c.toNat = 0x205f || c.toNat = 0x3000

/-- ASCII case folding, modelling Python `str.lower()` on the ASCII+CJK text
this program handles (CJK ideographs have no case). -/
def lowerChar (c : Char) : Char :=
  if 65 ≤ c.toNat ∧ c.toNat ≤ 90 then Char.ofNat (c.toNat + 32) else c

def lowerL (l : List Char) : List Char := l.map lowerChar

def pyLower (s : String) : String := ⟨lowerL s.data⟩

/-- Drop trailing characters satisfying `p` (Python `rstrip`-style). -/
def dropEndIf (p : Char → Bool) (l : List Char) : List Char :=
  ((l.reverse).dropWhile p).reverse

/-- Python `str.strip()` on character lists. -/
def stripL (l : List Char) : List Char := dropEndIf isPySpace (l.dropWhile isPySpace)

def pyStrip (s : String) : String := ⟨stripL s.data⟩

def isColonChar (c : Char) : Bool := c = '：' || c = ':'

/-- Python `rstrip('：:')`. -/
def rstripColonsL (l : List Char) : List Char := dropEndIf isColonChar l

/-- Does `l` start with the pattern `pat`? -/
def startsWithL : List Char → List Char → Bool
  | [], _ => true
  | _ :: _, [] => false
  | p :: ps, c :: cs => p = c && startsWithL ps cs

/-- Substring containment (Python's `in` on strings). -/
def containsSub (needle : List Char) : List Char → Bool
  | [] => needle.isEmpty
  | c :: rest => startsWithL needle (c :: rest) || containsSub needle rest

def strContains (hay sub : String) : Bool := containsSub sub.data hay.data

def endsWithL (pat l : List Char) : Bool := startsWithL pat.reverse l.reverse

def strEndsWith (s pat : String) : Bool := endsWithL pat.data s.data

/-- The portion of `l` after the first occurrence of `sep`
(Python `l.split(sep, 1)[1]`), if `sep` occurs at all. -/
def afterSub (sep : List Char) : List Char → Option (List Char)
  | [] => if sep.isEmpty then some [] else none
  | c :: rest =>
    if startsWithL sep (c :: rest) then some (List.drop sep.length (c :: rest))
    else afterSub sep rest

/-- Python `str.split(sep)` for a one-character separator: accumulator pass. -/
def splitGo (sep : Char) : List Char → List Char → List (List Char)
  | [], cur => [cur.reverse]
  | c :: rest, cur =>
    if c = sep then cur.reverse :: splitGo sep rest [] else splitGo sep rest (c :: cur)

def splitOnCh (sep : Char) (l : List Char) : List (List Char) := splitGo sep l []

/-- Python `str(n).zfill(3)` / the `{n:03d}` format for naturals. -/
def zfill3 (s : String) : String := ⟨List.replicate (3 - s.data.length) '0' ++ s.data⟩

/-! ## scp_parser.py : SCPParser -/

/-- `SCPParser.FIELD_MAPPING` — the synonym table, in source order. -/
def FIELD_MAPPING : List (String × String) := [
  ("项目编号", "id"), ("項目編號", "id"), ("编号", "id"), ("編號", "id"),
  ("scp编号", "id"), ("scp編號", "id"), ("item #", "id"), ("item number", "id"),
  ("项目等级", "class"), ("項目等級", "class"), ("等级", "class"), ("等級", "class"),
  ("对象等级", "class"), ("對象等級", "class"), ("object class", "class"),
  ("classification", "class"),
  ("特殊收容措施", "containment"), ("特殊收容程序", "containment"),
  ("收容措施", "containment"), ("收容程序", "containment"), ("收容", "containment"),
  ("special containment procedures", "containment"), ("containment", "containment"),
  ("containment procedures", "containment"),
  ("描述", "description"), ("項目描述", "description"), ("项目描述", "description"),
  ("说明", "description"), ("詳述", "description"), ("description", "description"),
  ("附录", "addendum"), ("附錄", "addendum"),
  ("实验记录", "experiment_log"), ("實驗記錄", "experiment_log"),
  ("访谈记录", "interview_log"), ("訪談記錄", "interview_log"),
  ("事件记录", "incident_log"), ("事件記錄", "incident_log"),
  ("更新记录", "update_log"), ("更新記錄", "update_log"),
  ("历史", "history"), ("歷史", "history"),
  ("发现", "discovery"), ("發現", "discovery"),
  ("註", "notes"), ("注", "notes"), ("备注", "notes"),
  ("記錄開始", "record_start"), ("记录开始", "record_start"),
  ("記錄結束", "record_end"), ("记录结束", "record_end")]

/-- `SCPParser.STANDARD_FIELDS`. -/
def STANDARD_FIELDS : List String := [
  "id", "class", "description", "containment", "addendum",
  "experiment_log", "interview_log", "incident_log",
  "update_log", "history", "discovery", "notes",
  "error", "warning", "series", "name", "images", "tags"]

/-- Characters kept by the fallback transform `re.sub(r'[^\w一-鿿]', '_', key)`.
Python's `\w` is Unicode-aware (it also keeps katakana, accented letters, and
other non-ASCII word characters); the embedding models it only on the ASCII
and CJK-unified-ideograph repertoire — the repertoire of the synonym table
and of every label this development evaluates — where `\w` is exactly
`[a-zA-Z0-9_]` plus the explicitly named CJK block.  Any theorem that
quantifies over arbitrary labels and relies on this class therefore
restricts its labels to that repertoire. -/
def isKeepChar (c : Char) : Bool :=
  (48 ≤ c.toNat && c.toNat ≤ 57) || (65 ≤ c.toNat && c.toNat ≤ 90) ||
  (97 ≤ c.toNat && c.toNat ≤ 122) || c.toNat = 95 ||
  (0x4e00 ≤ c.toNat && c.toNat ≤ 0x9fff)

def keepSubL (l : List Char) : List Char := l.map (fun c => if isKeepChar c then c else '_')

/-- `SCPParser.normalize_key`: trim, strip a trailing colon, case-insensitive
lookup in the synonym table, fallback to the underscored lowercase slug. -/
def normalize_key (key : String) : String :=
  if key = "" then ""
  else
    let k := rstripColonsL (stripL key.data)
    let keyLower := lowerL k
    match FIELD_MAPPING.find? (fun p => lowerL p.1.data == keyLower) with
    | some p => p.2
    | none => ⟨lowerL (keepSubL k)⟩

/-- The redaction-marker spellings of `SCPParser.RE_REDACT`, in source order. -/
def REDACT_MARKERS : List (List Char) :=
  ["[数据删除]".data, "[资料删除]".data, "[已编辑]".data, "[删除]".data,
   "[REDACTED]".data, "[DATA EXPUNGED]".data]

/-- Case-insensitive prefix match: `some rest` iff `l` starts with `pat`
(up to ASCII case), where `rest` is what follows the matched pattern. -/
def matchCI : List Char → List Char → Option (List Char)
  | [], l => some l
  | _ :: _, [] => none
  | p :: ps, c :: cs => if lowerChar p = lowerChar c then matchCI ps cs else none

/-- First redaction marker matching at the head of `l` (the alternatives of
`RE_REDACT` are mutually exclusive at any position, so source order is moot). -/
def findMarker (l : List Char) : Option (List Char) :=
  REDACT_MARKERS.findSome? (fun m => matchCI m l)

/-- One fuel-indexed pass of `RE_REDACT.sub('[REDACTED]', ·)`: each step
consumes at least one character, so fuel = input length always suffices. -/
def redactGo : Nat → List Char → List Char
  | 0, l => l
  | _ + 1, [] => []
  | fuel + 1, c :: rest =>
    match findMarker (c :: rest) with
    | some rest' => "[REDACTED]".data ++ redactGo fuel rest'
    | none => c :: redactGo fuel rest

def redactSubL (l : List Char) : List Char := redactGo l.length l

def redactStr (s : String) : String := ⟨redactSubL s.data⟩

/-- `RE_WS.sub(' ', ·)`: collapse every whitespace run to one space.  The
flag records whether the previous input character was whitespace. -/
def wsGo : Bool → List Char → List Char
  | _, [] => []
  | prev, c :: rest =>
    if isPySpace c then
      if prev then wsGo true rest else ' ' :: wsGo true rest
    else c :: wsGo false rest

def wsSubL (l : List Char) : List Char := wsGo false l

/-- `RE_COLON_PREFIX.sub('', ·)`: strip one leading colon (either script)
and the whitespace following it. -/
def colonSubL : List Char → List Char
  | [] => []
  | c :: rest => if isColonChar c then rest.dropWhile isPySpace else c :: rest

/-- Does the string start with a colon glyph? -/
def startsWithColon (s : String) : Bool :=
  match s.data with
  | [] => false
  | c :: _ => isColonChar c

/-- `SCPParser.clean_value`: redaction-marker substitution, whitespace
collapse, leading-colon strip, final trim. -/
def clean_value (value : String) : String :=
  if value = "" then ""
  else ⟨stripL (colonSubL (wsSubL (redactSubL value.data)))⟩

/-- The keep/skip loop of `SCPParser.deduplicate_content`: keep a sentence iff
it was not kept before and is longer than 5 characters. -/
def dedupGo : List (List Char) → List (List Char) → List (List Char)
  | [], _ => []
  | x :: xs, seen =>
    if x ∉ seen ∧ 5 < x.length then x :: dedupGo xs (x :: seen) else dedupGo xs seen

/-- `SCPParser.deduplicate_content`. -/
def deduplicate_content (content : String) : String :=
  if content = "" then content
  else
    let sentences := ((splitOnCh '。' content.data).map stripL).filter (· ≠ [])
    let uniq := dedupGo sentences []
    ⟨List.intercalate "。".data uniq ++ (if uniq ≠ [] then "。".data else [])⟩

/-- Scan for the regex `scp-(\d+)` (case-insensitive): at each position try to
match the literal `scp-` followed by at least one digit; on a digitless match
the scan moves on by one position, like the regex engine. -/
def scpUrlScan : List Char → Option (List Char)
  | [] => none
  | c :: rest =>
    match matchCI "scp-".data (c :: rest) with
    | some after =>
      let ds := after.takeWhile Char.isDigit
      if ds ≠ [] then some ds else scpUrlScan rest
    | none => scpUrlScan rest

/-- `SCPParser.extract_id_from_url`. -/
def extract_id_from_url (url : String) : String :=
  match scpUrlScan url.data with
  | some ds => "SCP-" ++ zfill3 ⟨ds⟩
  | none => ""

/-- Record values: strings, integers (series number), string lists
(images / tags / validation issues), or the legacy nested `more_info`
container (a string-valued dict in this code base). -/
inductive Val where
  | s (x : String)
  | n (x : Int)
  | l (xs : List String)
  | d (m : List (String × String))
deriving DecidableEq, Repr

/-- Python truthiness of a record value. -/
def pyTruthy : Val → Bool
  | .s x => x ≠ ""
  | .n i => i ≠ 0
  | .l xs => !xs.isEmpty
  | .d m => !m.isEmpty

/-- Dict lookup (`data[k]` / `data.get(k)`). -/
def pyGet : List (String × Val) → String → Option Val
  | [], _ => none
  | kv :: rest, k => if kv.1 = k then some kv.2 else pyGet rest k

def pyHas (m : List (String × Val)) (k : String) : Bool := (pyGet m k).isSome

/-- Dict assignment `m[k] = v`: replace in place, else append (insertion
order preserved, as for Python dicts). -/
def pySet : List (String × Val) → String → Val → List (String × Val)
  | [], k, v => [(k, v)]
  | kv :: rest, k, v => if kv.1 = k then (k, v) :: rest else kv :: pySet rest k v

/-- `m.update(m')`. -/
def pyUpdate (m m' : List (String × Val)) : List (String × Val) :=
  m'.foldl (fun acc kv => pySet acc kv.1 kv.2) m

/-- `del m[k]`. -/
def pyDel (m : List (String × Val)) (k : String) : List (String × Val) :=
  m.filter (fun kv => kv.1 ≠ k)

/-- The id backfill of `SCPParser.ensure_required_fields`: if `id` is absent
or falsy, derive it from the URL, else synthesize it from the identifier. -/
def ensure_id (data : List (String × Val)) (scp_id : Nat) (url : String) :
    List (String × Val) :=
  if (match pyGet data "id" with | some v => pyTruthy v | none => false) then data
  else
    if url ≠ "" then
      let e := extract_id_from_url url
      if e ≠ "" then pySet data "id" (.s e)
      else pySet data "id" (.s ("SCP-" ++ zfill3 (toString scp_id)))
    else pySet data "id" (.s ("SCP-" ++ zfill3 (toString scp_id)))

/-- One step of the dedup loop of `ensure_required_fields`:
`if field in result and isinstance(result[field], str)`, deduplicate it. -/
def dedupe_field (data : List (String × Val)) (f : String) : List (String × Val) :=
  match pyGet data f with
  | some (.s t) => pySet data f (.s (deduplicate_content t))
  | _ => data

/-- `SCPParser.ensure_required_fields`: backfill `id` (from the URL, else
from the numeric identifier), then deduplicate the long text fields. -/
def ensure_required_fields (data : List (String × Val)) (scp_id : Nat) (url : String) :
    List (String × Val) :=
  dedupe_field (dedupe_field (ensure_id data scp_id url) "description") "containment"

/-- `SCPParser.categorize_fields`: flatten a dict-valued `more_info` into the
top level, then re-normalize every other key. -/
def categorize_fields (data : List (String × Val)) : List (String × Val) :=
  let result : List (String × Val) :=
    match pyGet data "more_info" with
    | some (.d entries) =>
      entries.foldl (fun acc kv => pySet acc (normalize_key kv.1) (.s kv.2)) []
    | _ => []
  data.foldl
    (fun acc kv => if kv.1 = "more_info" then acc else pySet acc (normalize_key kv.1) kv.2)
    result

/-- A content block: its full visible text (`get_text()`) and the text of its
first emphasized (`<strong>`) sub-span, if any. -/
structure Element where
  fullText : String
  strong : Option String
deriving DecidableEq, Repr

/-- State of the block-scanning loop in `SCPParser.parse_page_content`:
`stopped` models the `break`, `ck`/`cv` the current-field cursor (an empty
`ck` is "no field open", matching Python's falsiness test on
`current_key`), and `acc` the result dict built so far. -/
structure ParseSt where
  stopped : Bool
  ck : String
  cv : String
  acc : List (String × Val)
deriving Repr

def endsWithSpaceCh (s : String) : Bool := s.data.getLast? = some ' '

/-- Flush the current field: store it iff both the normalized key and the
cleaned value are non-empty. -/
def flushField (ck cv : String) (acc : List (String × Val)) : List (String × Val) :=
  if ck ≠ "" then
    let nk := normalize_key ck
    let cvv := clean_value cv
    if nk ≠ "" ∧ cvv ≠ "" then pySet acc nk (.s cvv) else acc
  else acc

/-- One iteration of the block loop of `SCPParser.parse_page_content`. -/
def parseStep (st : ParseSt) (e : Element) : ParseSt :=
  if st.stopped then st
  else
    let t := pyStrip e.fullText
    if t = "" then st
    else if (strContains t "«" || strContains t "‹") &&
        (startsWithL "«".data t.data || startsWithL "‹".data t.data) then
      { st with stopped := true }
    else
      match e.strong with
      | some stg =>
        let acc' := flushField st.ck st.cv st.acc
        let ck' := pyStrip stg
        let cv' := pyStrip ⟨t.data.drop ck'.data.length⟩
        { st with ck := ck', cv := cv', acc := acc' }
      | none =>
        if st.ck ≠ "" then
          let cv' :=
            (if st.cv ≠ "" ∧ ¬ endsWithSpaceCh st.cv then st.cv ++ " " else st.cv) ++ t
          { st with cv := cv' }
        else st

/-- `SCPParser.parse_page_content`. -/
def parse_page_content (elements : List Element) (scp_id : Nat) (url : String) :
    List (String × Val) :=
  let st := elements.foldl parseStep { stopped := false, ck := "", cv := "", acc := [] }
  let result := flushField st.ck st.cv st.acc
  let result := ensure_required_fields result scp_id url
  categorize_fields result

/-! ## scp_parser.py : SCPValidator -/

def REQUIRED_FIELDS : List String := ["id"]

def RECOMMENDED_FIELDS : List String := ["class", "containment", "description"]

/-- `field in data and data[field]` — present and truthy. -/
def fieldTruthy (data : List (String × Val)) (f : String) : Bool :=
  match pyGet data f with
  | some v => pyTruthy v
  | none => false

/-- `SCPValidator.validate`. -/
def validate (data : List (String × Val)) : List (String × Val) :=
  let issues := REQUIRED_FIELDS.foldl
    (fun acc f => if fieldTruthy data f then acc else acc ++ ["缺少必需字段: " ++ f]) []
  let missingRec := RECOMMENDED_FIELDS.filter (fun f => ! fieldTruthy data f)
  let issues :=
    if missingRec ≠ [] then issues ++ ["缺少推荐字段: " ++ String.intercalate ", " missingRec]
    else issues
  if issues ≠ [] then pySet data "validation_issues" (.l issues) else data

/-- All required and recommended fields present and non-empty (the
"no validation shortfall" condition). -/
def no_issues (data : List (String × Val)) : Bool :=
  REQUIRED_FIELDS.all (fieldTruthy data) && RECOMMENDED_FIELDS.all (fieldTruthy data)

/-! ## temp_scraper.py -/

def base_url : String := "http://scp-wiki-cn.wikidot.com/scp-"

/-- `harmonize_id`. -/
def harmonize_id (n : Nat) : String := zfill3 (toString n)

/-- `get_series_number`: `(_id // 1000) + 1` clamped to `[1, 9]`
(Python `//` is floor division, hence `Int.fdiv`). -/
def get_series_number (n : Int) : Int := max 1 (min (n.fdiv 1000 + 1) 9)

/-- `get_series_url`. -/
def get_series_url (sn : Int) : String :=
  if sn = 1 then "http://scp-wiki-cn.wikidot.com/scp-series"
  else "http://scp-wiki-cn.wikidot.com/scp-series" ++ "-" ++ toString sn

/-- An anchor element carrying an `href` attribute and its visible text. -/
structure Link where
  href : String
  text : String
deriving DecidableEq, Repr

/-- The parsed form of a fetched series listing page, as far as
`get_scp_name_from_series` reads it: its links (`find_all('a', href=True)`)
and the lines of its full text (`get_text().split('\n')`). -/
structure Page where
  links : List Link
  textLines : List String
deriving DecidableEq, Repr

/-- The `lru_cache` behind `fetch_series_page`, made explicit: grouping
number ↦ cached fetch result.  `none` models the empty bytes `b""` returned
on a failed fetch (falsy, like `b""`); `some page` models successfully
fetched content.  The cache cap of 16 is never reached (there are only nine
grouping numbers), so eviction is not modelled. -/
abbrev SeriesCache := List (Int × Option Page)

def cacheFind : SeriesCache → Int → Option (Option Page)
  | [], _ => none
  | kv :: rest, sn => if kv.1 = sn then some kv.2 else cacheFind rest sn

/-- `fetch_series_page` with the cache threaded explicitly.  `net` is the
external HTTP collaborator (`none` = request failure, turned into `b""` by
the `except` branch).  The returned flag records whether an underlying
fetch was attempted (i.e. whether the wrapped function body ran). -/
def fetch_series_page (net : Int → Option Page) (cache : SeriesCache) (sn : Int) :
    Option Page × SeriesCache × Bool :=
  match cacheFind cache sn with
  | some c => (c, cache, false)
  | none =>
    let c := net sn
    (c, cache ++ [(sn, c)], true)

/-- `RE_CLEAN_NAME.sub('', ·)` with pattern `[·•].*$`: drop everything from
the first interpunct/bullet on. -/
def cleanNameL (l : List Char) : List Char := l.takeWhile (fun c => !(c = '·' || c = '•'))

/-- The link-scanning half of `get_scp_name_from_series`: first link whose
`href` contains the pattern and whose stripped text contains `" - "`; return
the trimmed part after the first `" - "`. -/
def extract_name_links (links : List Link) (pat : String) : Option String :=
  match links.find? (fun lk =>
      strContains lk.href pat && strContains (pyStrip lk.text) " - ") with
  | some lk => some (pyStrip ⟨(afterSub " - ".data (pyStrip lk.text).data).getD []⟩)
  | none => none

/-- The line-scanning fallback of `get_scp_name_from_series`: first line
containing the canonical identifier and `" - "` whose cleaned name part is
non-empty. -/
def extract_name_lines (lines : List String) (idStr : String) : Option String :=
  lines.findSome? (fun line =>
    if strContains line idStr && strContains line " - " then
      match afterSub " - ".data line.data with
      | some rest =>
        let np := stripL (cleanNameL (stripL rest))
        if np ≠ [] then some (⟨np⟩ : String) else none
      | none => none
    else none)

/-- `get_scp_name_from_series`.  The source wraps its whole body in
`try/except` returning `""`; the embedding is total, and empty cached
content (`b""`) short-circuits to `""` exactly as `if not content`. -/
def get_scp_name_from_series (net : Int → Option Page) (cache : SeriesCache) (id : Nat) :
    String × SeriesCache × Bool :=
  let sn := get_series_number (id : Int)
  let (content, cache', fetched) := fetch_series_page net cache sn
  match content with
  | none => ("", cache', fetched)
  | some page =>
    let fmt := harmonize_id id
    let nm :=
      match extract_name_links page.links ("scp-" ++ fmt) with
      | some v => v
      | none => (extract_name_lines page.textLines ("SCP-" ++ fmt)).getD ""
    (nm, cache', fetched)

/-- An `<img>` element; a missing attribute is the empty string, matching
`img.get(attr) or ''`. -/
structure Img where
  src : String := ""
  dataSrc : String := ""
  dataImage : String := ""
  srcset : String := ""
  alt : String := ""
  title : String := ""
deriving DecidableEq, Repr

/-- `urls.add(x)` on the candidate set, tracked in insertion order. -/
def setInsert (l : List String) (x : String) : List String :=
  if x ∈ l then l else l ++ [x]

/-- `_extract_urls_from_img`: collect `src`, the lazy-load attributes and the
`srcset` candidates into the set `urls`.  The list below records the set's
CONTENTS in insertion order; the source then returns `list(urls)`, whose
iteration order is unspecified (hash order) — call sites model that with an
explicit reordering function applied to this list. -/
def extract_urls_from_img (img : Img) : List String :=
  let urls : List String := []
  let urls := let v := pyStrip img.src; if v ≠ "" then setInsert urls v else urls
  let urls := let v := pyStrip img.dataSrc; if v ≠ "" then setInsert urls v else urls
  let urls := let v := pyStrip img.dataImage; if v ≠ "" then setInsert urls v else urls
  let srcset := pyStrip img.srcset
  if srcset ≠ "" then
    (splitOnCh ',' srcset.data).foldl
      (fun acc part =>
        let p := stripL ((splitOnCh ' ' (stripL part)).headD [])
        if p ≠ [] then setInsert acc ⟨p⟩ else acc)
      urls
  else urls

def IMAGE_EXTS : List String := [".jpg", ".jpeg", ".png", ".gif", ".webp", ".svg"]

/-- Scheme+host of a URL (text before the first `/` after `://`). -/
def originOf (base : String) : String :=
  match afterSub "://".data base.data with
  | some rest =>
    ⟨base.data.take (base.data.length - rest.length) ++ rest.takeWhile (· ≠ '/')⟩
  | none => base

/-- Directory part of a URL, up to and including the last `/`. -/
def dirOf (base : String) : String := ⟨(base.data.reverse.dropWhile (· ≠ '/')).reverse⟩

/-- Modelled from the spec: the external URL-resolution collaborator
(`urllib.parse.urljoin`, standard library, not part of this repository).
Absolute references are returned unchanged; scheme-relative, root-relative
and relative references are resolved against the base URL. -/
def urljoin (base rel : String) : String :=
  if startsWithL "http://".data rel.data || startsWithL "https://".data rel.data then rel
  else if rel = "" then base
  else if startsWithL "//".data rel.data then ⟨base.data.takeWhile (· ≠ ':')⟩ ++ ":" ++ rel
  else if startsWithL "/".data rel.data then originOf base ++ rel
  else dirOf base ++ rel

/-- `_normalize_and_filter_urls`: resolve to absolute URLs, keep only
`http(s)` URLs ending in a recognized image extension. -/
def normalize_and_filter_urls (urls : List String) (page_url : String) : List String :=
  urls.foldl
    (fun acc u =>
      let full := urljoin page_url u
      if !(startsWithL "http://".data full.data || startsWithL "https://".data full.data) then
        acc
      else if IMAGE_EXTS.any (fun ext => strEndsWith (pyLower full) ext) then acc ++ [full]
      else acc)
    []

/-- `_is_relevant_image`. -/
def is_relevant_image (url alt title fmt : String) : Bool :=
  let urlLower := pyLower url
  if strContains urlLower ("scp-" ++ fmt) then true
  else if strContains urlLower "scp" then true
  else if alt ≠ "" || title ≠ "" then
    strContains (pyLower alt) "scp" || strContains (pyLower title) "scp"
  else false

/-- The main content region (`div#page-content`) of a fetched document, as
far as the pipeline reads it: its candidate field blocks
(`find_all(['p','div','blockquote'])`), its images, and its anchor links. -/
structure Region where
  elements : List Element := []
  imgs : List Img := []
  aLinks : List Link := []
deriving DecidableEq, Repr

/-- A fetched and parsed document: its resolved URL (`response.url`), its
main content region if present, and the soup-level `div.page-tags` link
container if present. -/
structure Doc where
  url : String
  pageContent : Option Region := none
  pageTagsDiv : Option (List Link) := none
deriving DecidableEq, Repr

/-- `extract_images_from_soup`.  `setOrd` models the iteration order of
`list(urls)` over the per-image candidate set (`_extract_urls_from_img`
returns a Python `set`, whose order is unspecified): it is applied to the
set's insertion-ordered contents.  In the source, `ordered` and `seen` hold
the same elements; membership is all that `seen` is used for, so one list
serves as both. -/
def extract_images_from_soup (setOrd : List String → List String)
    (page_content : Option Region) (scp_id : Nat) (page_url : String) : List String :=
  match page_content with
  | none => []
  | some region =>
    let fmt := harmonize_id scp_id
    region.imgs.foldl
      (fun ordered img =>
        let candidates := setOrd (extract_urls_from_img img)
        let normalized := normalize_and_filter_urls candidates page_url
        normalized.foldl
          (fun ordered u =>
            if is_relevant_image u img.alt img.title fmt then
              if u ∉ ordered then ordered ++ [u] else ordered
            else ordered)
          ordered)
      []

def FILTERED_TAGS : List String :=
  ["scp", "safe", "euclid", "keter", "thaumiel", "apollyon",
   "archon", "neutralized", "explained", "decommissioned"]

/-- `extract_tags_from_soup`: tags from `div.page-tags` links, else the
`/tag/`-link fallback inside the content region; filtered (case-insensitive)
against `FILTERED_TAGS`, deduplicated case-sensitively. -/
def extract_tags_from_soup (doc : Doc) (page_content : Option Region) : List String :=
  let tags₀ : List String :=
    match doc.pageTagsDiv with
    | some links =>
      links.foldl
        (fun tags lk =>
          let t := pyStrip lk.text
          if t ≠ "" ∧ pyLower t ∉ FILTERED_TAGS ∧ t ∉ tags then tags ++ [t] else tags)
        []
    | none => []
  if tags₀.isEmpty then
    match page_content with
    | some region =>
      region.aLinks.foldl
        (fun tags lk =>
          if strContains lk.href "/tag/" then
            let t := pyStrip lk.text
            if t ≠ "" ∧ pyLower t ∉ FILTERED_TAGS ∧ t ∉ tags then tags ++ [t] else tags
          else tags)
        tags₀
    | none => tags₀
  else tags₀

/-- `affix_additional`: flatten a dict-valued `more_info` into the top level
without overwriting existing keys, then delete it. -/
def affix_additional (results : List (String × Val)) : List (String × Val) :=
  match pyGet results "more_info" with
  | some (.d entries) =>
    let merged := entries.foldl
      (fun acc kv => if pyHas acc kv.1 then acc else acc ++ [(kv.1, Val.s kv.2)]) results
    pyDel merged "more_info"
  | _ => results

/-- `scrape_scp`, from the point the series/name lookup starts.  `net` and
`cache` model the series-page collaborator and its cache as for
`get_scp_name_from_series`; `setOrd` is the candidate-set iteration order
(see `extract_images_from_soup`); `fetched` is the outcome of
`session.get` + `BeautifulSoup` on the item page (`Except.error e` models
`requests.RequestException` with message `e`). -/
def scrape_scp (net : Int → Option Page) (cache : SeriesCache)
    (setOrd : List String → List String) (fetched : Except String Doc) (id : Nat) :
    List (String × Val) × SeriesCache :=
  let sn := get_series_number (id : Int)
  let (scp_name, cache₁, _) := get_scp_name_from_series net cache id
  let r₀ : List (String × Val) := [("series", Val.n sn)]
  let r₁ := if scp_name ≠ "" then pySet r₀ "name" (Val.s scp_name) else r₀
  let r₂ := pySet r₁ "id" (Val.s ("SCP-" ++ zfill3 (toString id)))
  match fetched with
  | .error e => ([("error", Val.s ("请求失败: " ++ e))], cache₁)
  | .ok doc =>
    match doc.pageContent with
    | none => ([("error", Val.s "未找到页面内容")], cache₁)
    | some region =>
      let parsed := parse_page_content region.elements id doc.url
      let r₃ := pyUpdate r₂ parsed
      let images := extract_images_from_soup setOrd (some region) id doc.url
      let r₄ := if images ≠ [] then pySet r₃ "images" (Val.l images) else r₃
      let tags := extract_tags_from_soup doc (some region)
      let r₅ := if tags ≠ [] then pySet r₄ "tags" (Val.l tags) else r₄
      let r₆ :=
        if r₅ = [] ∨ r₅.all (fun kv => kv.1 = "error") then
          pySet r₅ "warning" (Val.s "未能提取到标准SCP字段")
        else r₅
      let r₇ := affix_additional r₆
      (validate r₇, cache₁)

/-! ## Reference definitions taken from the claims' wording -/

/-- Reference keep/skip loop for claim C5's wording: keep a segment iff its
trimmed length is at least 6 and no identical segment was kept earlier. -/
def dedupRefGo : List (List Char) → List (List Char) → List (List Char)
  | [], _ => []
  | x :: xs, kept =>
    if 6 ≤ x.length ∧ x ∉ kept then x :: dedupRefGo xs (x :: kept) else dedupRefGo xs kept

/-- Reference deduplication, following claim C5 word for word: split on the
terminator, trim each segment, keep per `dedupRefGo` preserving order,
rejoin with the terminator, one trailing terminator iff anything survived. -/
def dedupe_ref (content : String) : String :=
  let segs := (splitOnCh '。' content.data).map stripL
  let kept := dedupRefGo segs []
  ⟨List.intercalate "。".data kept ++ (if kept ≠ [] then "。".data else [])⟩

/-- The id pattern of claim C2: the constant `SCP-` followed by a number
zero-padded to (at least) 3 digits. -/
def isSCPIdFormat (s : String) : Bool :=
  startsWithL "SCP-".data s.data &&
    (let r := s.data.drop 4
     r.all Char.isDigit && decide (3 ≤ r.length))

/-- The flattened relevant-candidate sequence behind
`extract_images_from_soup`: per image (in document order), the normalized,
filtered, relevance-checked candidates in the order the code iterates them. -/
def imageCandidateSeq (setOrd : List String → List String) (region : Region)
    (scp_id : Nat) (page_url : String) : List String :=
  (region.imgs.map (fun img =>
    (normalize_and_filter_urls (setOrd (extract_urls_from_img img)) page_url).filter
      (fun u => is_relevant_image u img.alt img.title (harmonize_id scp_id)))).flatten

/-- Reference first-seen deduplication for claim C9's wording. -/
def dedupFirstGo : List String → List String → List String
  | [], _ => []
  | x :: xs, seen =>
    if x ∈ seen then dedupFirstGo xs seen else x :: dedupFirstGo xs (x :: seen)

def dedupFirst (l : List String) : List String := dedupFirstGo l []

/-! ## Concrete fixtures used by the claim theorems -/

/-- A fetched document whose content region is present but contains no
blocks at all: block parsing can extract nothing (extraction degeneracy). -/
def degenerateDoc : Doc :=
  { url := "http://scp-wiki-cn.wikidot.com/scp-002",
    pageContent := some { elements := [], imgs := [], aLinks := [] },
    pageTagsDiv := none }

/-- A block carrying an emphasized `项目编号` label whose value text is not in
the `SCP-` format. -/
def idLabelElem : Element :=
  { fullText := "项目编号xyzzy危险", strong := some "项目编号" }

/-- An image with two candidate URLs in attribute order `src`, `data-src`. -/
def twoUrlImg : Img :=
  { src := "http://h/scp-a.png", dataSrc := "http://h/scp-b.png" }

def twoUrlRegion : Region := { elements := [], imgs := [twoUrlImg], aLinks := [] }

/-- A record with only `id` set. -/
def onlyIdRec : List (String × Val) := [("id", Val.s "SCP-001")]

/-- A record with `id`, `class`, `containment` and `description` all set and
non-empty. -/
def fullRec : List (String × Val) :=
  [("id", Val.s "SCP-001"), ("class", Val.s "Euclid"),
   ("containment", Val.s "收容于标准储物柜中"), ("description", Val.s "一个测试对象")]

/-! ## Invariant predicates used by the proofs -/

/-- Every stored value is a non-empty string — the invariant of the
block-scanning loop, whose flush stores only non-empty cleaned values. -/
def strVals (m : List (String × Val)) : Prop :=
  ∀ kv ∈ m, ∃ w, kv.2 = Val.s w ∧ w ≠ ""

/-- Every stored value is a string, non-empty unless it sits at one of the
two deduplicated fields (deduplication can empty a short text). -/
def weakVals (m : List (String × Val)) : Prop :=
  ∀ kv ∈ m, ∃ w, kv.2 = Val.s w ∧ (w ≠ "" ∨ kv.1 = "description" ∨ kv.1 = "containment")

/-- The record carries a non-empty string under `id`. -/
def goodId (m : List (String × Val)) : Prop :=
  ∃ w, pyGet m "id" = some (Val.s w) ∧ w ≠ ""

/-- All whitespace characters in the list are plain spaces. -/
def wsOnly (l : List Char) : Prop := ∀ c ∈ l, isPySpace c = true → c = ' '

/-- No two adjacent whitespace characters. -/
def noWW (l : List Char) : Prop :=
  List.Chain' (fun a b => ¬(isPySpace a = true ∧ isPySpace b = true)) l

/-- The head, if any, is not whitespace. -/
def headNoWS (l : List Char) : Prop := ∀ c, l.head? = some c → isPySpace c = false

/-! ## Dictionary lemmas -/

theorem pyGet_pySet_self (m : List (String × Val)) (k : String) (v : Val) :
    pyGet (pySet m k v) k = some v := by
  induction m with
  | nil => simp [pySet, pyGet]
  | cons kv rest ih =>
    by_cases h : kv.1 = k
    · simp [pySet, h, pyGet]
    · simp [pySet, h, pyGet, ih]

theorem pyGet_pySet_ne (m : List (String × Val)) (k k' : String) (v : Val) (h : k' ≠ k) :
    pyGet (pySet m k v) k' = pyGet m k' := by
  have hne : ¬ k = k' := fun he => h he.symm
  induction m with
  | nil => simp [pySet, pyGet, hne]
  | cons kv rest ih =>
    by_cases hk : kv.1 = k
    · subst hk
      simp [pySet, pyGet, hne]
    · simp [pySet, pyGet, hk, ih]

theorem mem_pySet {m : List (String × Val)} {k : String} {v : Val} {kv : String × Val}
    (h : kv ∈ pySet m k v) : kv ∈ m ∨ kv = (k, v) := by
  induction m with
  | nil => simpa [pySet] using h
  | cons kv₀ rest ih =>
    by_cases hk : kv₀.1 = k
    · simp only [pySet, if_pos hk, List.mem_cons] at h
      rcases h with h | h
      · exact Or.inr h
      · exact Or.inl (List.mem_cons_of_mem _ h)
    · simp only [pySet, if_neg hk, List.mem_cons] at h
      rcases h with h | h
      · exact Or.inl (h ▸ List.mem_cons_self _ _)
      · rcases ih h with h' | h'
        · exact Or.inl (List.mem_cons_of_mem _ h')
        · exact Or.inr h'

theorem pyGet_some_mem {m : List (String × Val)} {k : String} {v : Val}
    (h : pyGet m k = some v) : (k, v) ∈ m := by
  induction m with
  | nil => simp [pyGet] at h
  | cons kv rest ih =>
    rcases kv with ⟨k₀, v₀⟩
    by_cases hk : k₀ = k
    · simp only [pyGet, if_pos hk] at h
      subst hk
      obtain rfl : v₀ = v := by simpa using h
      exact List.mem_cons_self _ _
    · simp only [pyGet, if_neg hk] at h
      exact List.mem_cons_of_mem _ (ih h)

/-! ## Claim C8 : SeriesResolver grouping formula -/

/-- Claim C8: for every integer identifier `n`, `get_series_number n` equals
`n` floor-divided by 1000, plus one, clamped to the interval `[1, 9]`; in
particular 1500 maps to 2 and 15000 clamps to 9, never higher. -/
theorem get_series_number_formula (n : Int) :
    (1 ≤ get_series_number n ∧ get_series_number n ≤ 9) ∧
    get_series_number n = min 9 (max 1 (n.fdiv 1000 + 1)) ∧
    get_series_number 1500 = 2 ∧ get_series_number 15000 = 9 := by
  refine ⟨⟨le_max_left _ _, max_le (by norm_num) (min_le_right _ _)⟩, ?_, by decide, by decide⟩
  unfold get_series_number
  rcases le_total (n.fdiv 1000 + 1) 1 with h | h <;>
    rcases le_total (n.fdiv 1000 + 1) 9 with h2 | h2 <;>
    simp [max_def, min_def] <;> omega

/-! ## Claim C5 : ContentDeduplicator matches its reference definition -/

theorem dedupGo_filter (l : List (List Char)) :
    ∀ seen, dedupGo (l.filter (· ≠ [])) seen = dedupRefGo l seen := by
  induction l with
  | nil => intro seen; rfl
  | cons x xs ih =>
    intro seen
    by_cases hx : x = []
    · subst hx
      rw [show (([] : List Char) :: xs).filter (· ≠ []) = xs.filter (· ≠ []) by simp]
      rw [dedupRefGo, if_neg (by simp)]
      exact ih seen
    · rw [show (x :: xs).filter (· ≠ []) = x :: xs.filter (· ≠ []) by simp [hx]]
      rw [dedupGo, dedupRefGo]
      by_cases hmem : x ∈ seen
      · rw [if_neg (fun hc => hc.1 hmem), if_neg (fun hc => hc.2 hmem)]
        exact ih seen
      · by_cases hlen : 5 < x.length
        · rw [if_pos ⟨hmem, hlen⟩, if_pos ⟨by omega, hmem⟩, ih (x :: seen)]
        · rw [if_neg (fun hc => hlen hc.2), if_neg (fun hc => hlen (by omega))]
          exact ih seen

/-- Claim C5: `deduplicate_content` agrees with the reference definition
`dedupe_ref` (split on the terminator, trim, keep iff trimmed length at least
6 and not already kept, rejoin, one trailing terminator iff anything
survived) on every input string. -/
theorem deduplicate_content_matches_ref (s : String) :
    deduplicate_content s = dedupe_ref s := by
  by_cases hs : s = ""
  · subst hs; decide
  · unfold deduplicate_content dedupe_ref
    rw [if_neg hs]
    simp only [dedupGo_filter]

/-! ## Claim C7 : SCPValidator.validate frame and annotation behaviour -/

/-- Claim C7: `validate` agrees with its input on every key other than
`validation_issues`, returns its input unchanged when all required and
recommended fields are present and non-empty (so the key is added only on a
shortfall), gives a record with only `id` one issue naming all three
recommended fields, and leaves a record with `id`, `class`, `containment`
and `description` all set without any `validation_issues` key. -/
theorem validate_props (data : List (String × Val)) :
    (∀ k, k ≠ "validation_issues" → pyGet (validate data) k = pyGet data k) ∧
    (no_issues data = true → validate data = data) ∧
    validate onlyIdRec =
      [("id", Val.s "SCP-001"),
       ("validation_issues", Val.l ["缺少推荐字段: class, containment, description"])] ∧
    validate fullRec = fullRec ∧ pyGet (validate fullRec) "validation_issues" = none := by
  refine ⟨?_, ?_, by decide, by decide, by decide⟩
  · intro k hk
    unfold validate
    dsimp only
    split <;> split <;> first | exact pyGet_pySet_ne data _ k _ hk | rfl
  · intro h
    simp only [no_issues, REQUIRED_FIELDS, RECOMMENDED_FIELDS, List.all_cons, List.all_nil,
      Bool.and_eq_true, Bool.and_true, and_true] at h
    obtain ⟨hid, hcl, hco, hde⟩ := h
    simp [validate, REQUIRED_FIELDS, RECOMMENDED_FIELDS, hid, hcl, hco, hde]

/-- Witness instantiating `validate_props` at the fully populated record. -/
theorem validate_props_w : validate fullRec = fullRec :=
  (validate_props fullRec).2.1 (by decide)

/-! ## Claim C1 : the extraction-degeneracy warning (code-bug evidence) -/

/-- Claim C1 (divergence evidence): on a fetched document whose content
region is present but empty — so that block parsing extracts no standard
fields — `scrape_scp` keeps the record and reports no error, but the record
carries no `warning` entry: the degeneracy guard
`not result_dict or all(key == 'error' ...)` can never hold because
`series` and `id` are always pre-populated. -/
theorem scrape_scp_degenerate_no_warning :
    (scrape_scp (fun _ => none) [] (fun l => l) (Except.ok degenerateDoc) 2).1 =
      [("series", Val.n 1), ("id", Val.s "SCP-002"),
       ("validation_issues", Val.l ["缺少推荐字段: class, containment, description"])] ∧
    pyGet (scrape_scp (fun _ => none) [] (fun l => l) (Except.ok degenerateDoc) 2).1
      "warning" = none ∧
    pyGet (scrape_scp (fun _ => none) [] (fun l => l) (Except.ok degenerateDoc) 2).1
      "error" = none := by
  refine ⟨by decide, by decide, by decide⟩

/-! ## Claim C10 : failed series fetches are cached as empty results -/

theorem cacheFind_append_self (cache : SeriesCache) (sn : Int) (v : Option Page)
    (h : cacheFind cache sn = none) : cacheFind (cache ++ [(sn, v)]) sn = some v := by
  induction cache with
  | nil => simp [cacheFind]
  | cons kv rest ih =>
    by_cases hk : kv.1 = sn
    · simp [cacheFind, hk] at h
    · simp only [cacheFind, if_neg hk] at h
      simpa [cacheFind, hk] using ih h

/-- Claim C10: when the first fetch of a grouping's listing page fails, the
empty result is cached under the grouping number, so the name lookup returns
an empty name; every later lookup for any identifier of the same grouping
returns an empty name without re-attempting the fetch, leaving the cache
unchanged (and the embedding, like the source's catch-all handler, never
propagates a failure to the caller). -/
theorem fetch_failure_cached (net : Int → Option Page) (cache : SeriesCache) (id₁ id₂ : Nat)
    (hnet : net (get_series_number (id₁ : Int)) = none)
    (hmiss : cacheFind cache (get_series_number (id₁ : Int)) = none)
    (hsame : get_series_number (id₂ : Int) = get_series_number (id₁ : Int)) :
    (get_scp_name_from_series net cache id₁).1 = "" ∧
    (get_scp_name_from_series net cache id₁).2.2 = true ∧
    (get_scp_name_from_series net
      (get_scp_name_from_series net cache id₁).2.1 id₂).1 = "" ∧
    (get_scp_name_from_series net
      (get_scp_name_from_series net cache id₁).2.1 id₂).2.2 = false ∧
    (get_scp_name_from_series net
      (get_scp_name_from_series net cache id₁).2.1 id₂).2.1 =
      (get_scp_name_from_series net cache id₁).2.1 := by
  have e₁ : get_scp_name_from_series net cache id₁ =
      ("", cache ++ [(get_series_number (id₁ : Int), none)], true) := by
    unfold get_scp_name_from_series fetch_series_page
    dsimp only
    rw [hmiss, hnet]
  have e₂ : get_scp_name_from_series net
      (cache ++ [(get_series_number (id₁ : Int), none)]) id₂ =
      ("", cache ++ [(get_series_number (id₁ : Int), none)], false) := by
    unfold get_scp_name_from_series fetch_series_page
    dsimp only
    rw [hsame, cacheFind_append_self cache _ none hmiss]
  rw [e₁]
  simp [e₂]

/-- Witness for `fetch_failure_cached`: identifiers 1500 and 1999 share
grouping number 2; with every fetch failing and an empty initial cache, the
first lookup fetches once and caches the empty page, the second re-fetches
nothing. -/
theorem fetch_failure_cached_w :
    (get_scp_name_from_series (fun _ => none) [] 1500).1 = "" ∧
    (get_scp_name_from_series (fun _ => none) [] 1500).2.2 = true ∧
    (get_scp_name_from_series (fun _ => none)
      (get_scp_name_from_series (fun _ => none) [] 1500).2.1 1999).1 = "" ∧
    (get_scp_name_from_series (fun _ => none)
      (get_scp_name_from_series (fun _ => none) [] 1500).2.1 1999).2.2 = false ∧
    (get_scp_name_from_series (fun _ => none)
      (get_scp_name_from_series (fun _ => none) [] 1500).2.1 1999).2.1 =
      (get_scp_name_from_series (fun _ => none) [] 1500).2.1 :=
  fetch_failure_cached (fun _ => none) [] 1500 1999 rfl rfl (by decide)

/-! ## Counterexamples for the corrected claims -/

/-- Claim C3 counterexample: `clean_value` is not idempotent — collapsing
the doubled space inside `[DATA  EXPUNGED]` completes a redaction marker
that only the second application replaces. -/
theorem clean_value_not_idempotent_cex :
    clean_value "[DATA  EXPUNGED]" = "[DATA EXPUNGED]" ∧
    clean_value (clean_value "[DATA  EXPUNGED]") = "[REDACTED]" ∧
    ("[REDACTED]" : String) ≠ "[DATA EXPUNGED]" := by
  refine ⟨by decide, by decide, by decide⟩

/-- Claim C4 counterexample: the raw label `id` is non-empty, matches no
synonym (case-insensitively, after trimming and colon-stripping), yet its
fallback key `id` is a member of the canonical field set. -/
theorem normalize_key_fallback_collision_cex :
    ("id" : String) ≠ "" ∧
    (∀ p ∈ FIELD_MAPPING, lowerL p.1.data ≠ lowerL (rstripColonsL (stripL "id".data))) ∧
    normalize_key "id" = "id" ∧ "id" ∈ STANDARD_FIELDS := by
  refine ⟨by decide, by decide, by decide, by decide⟩

/-- Claim C2 counterexample: a block whose emphasized label maps to `id` and
whose value text is `xyzzy危险` produces a record whose `id` field does not
match the `SCP-` zero-padded pattern. -/
theorem parse_page_content_id_pattern_cex :
    pyGet (parse_page_content [idLabelElem] 7 "") "id" = some (Val.s "xyzzy危险") ∧
    isSCPIdFormat "xyzzy危险" = false := by
  refine ⟨by decide, by decide⟩

/-! ## Claim C2 : the id field of parse_page_content -/

theorem strVals_weakVals {m : List (String × Val)} (h : strVals m) : weakVals m :=
  fun kv hkv => by obtain ⟨w, hw, hne⟩ := h kv hkv; exact ⟨w, hw, Or.inl hne⟩

theorem strVals_pySet {m : List (String × Val)} {k : String} {w : String}
    (h : strVals m) (hw : w ≠ "") : strVals (pySet m k (.s w)) := by
  intro kv hkv
  rcases mem_pySet hkv with h' | h'
  · exact h kv h'
  · exact ⟨w, by rw [h'], hw⟩

theorem strVals_flush {acc : List (String × Val)} (ck cv : String) (h : strVals acc) :
    strVals (flushField ck cv acc) := by
  unfold flushField
  dsimp only
  split
  · split
    · next hnk => exact strVals_pySet h hnk.2
    · exact h
  · exact h

theorem strVals_parseStep {st : ParseSt} (e : Element) (h : strVals st.acc) :
    strVals (parseStep st e).acc := by
  unfold parseStep
  dsimp only
  split
  · exact h
  split
  · exact h
  split
  · exact h
  split
  · exact strVals_flush _ _ h
  split
  · exact h
  · exact h

theorem strVals_parseFold (elements : List Element) :
    ∀ st : ParseSt, strVals st.acc → strVals ((elements.foldl parseStep st).acc) := by
  induction elements with
  | nil => intro st h; exact h
  | cons e rest ih => intro st h; exact ih _ (strVals_parseStep e h)

theorem scp_string_ne_empty (t : String) : ("SCP-" ++ t) ≠ "" := by
  intro h
  have hd : ("SCP-" ++ t).data = "SCP-".data ++ t.data := rfl
  rw [h] at hd
  simp at hd

theorem ensure_id_good {data : List (String × Val)} (h : strVals data)
    (scp_id : Nat) (url : String) :
    goodId (ensure_id data scp_id url) ∧ strVals (ensure_id data scp_id url) := by
  unfold ensure_id
  split
  · next htr =>
    refine ⟨?_, h⟩
    rcases hg : pyGet data "id" with _ | v
    · rw [hg] at htr; simp at htr
    · obtain ⟨w, hw, hne⟩ := h ("id", v) (pyGet_some_mem hg)
      have hv : v = Val.s w := hw
      exact ⟨w, by rw [hg, hv], hne⟩
  · dsimp only
    split
    · split
      · next he => exact ⟨⟨_, pyGet_pySet_self _ _ _, he⟩, strVals_pySet h he⟩
      · exact ⟨⟨_, pyGet_pySet_self _ _ _, scp_string_ne_empty _⟩,
          strVals_pySet h (scp_string_ne_empty _)⟩
    · exact ⟨⟨_, pyGet_pySet_self _ _ _, scp_string_ne_empty _⟩,
        strVals_pySet h (scp_string_ne_empty _)⟩

theorem weakVals_dedupe {data : List (String × Val)} (f : String)
    (hf : f = "description" ∨ f = "containment") (h : weakVals data) :
    weakVals (dedupe_field data f) := by
  unfold dedupe_field
  split
  · intro kv hkv
    rcases mem_pySet hkv with h' | h'
    · exact h kv h'
    · refine ⟨deduplicate_content _, by rw [h'], Or.inr ?_⟩
      rw [h']
      rcases hf with hf | hf
      · exact Or.inl hf
      · exact Or.inr hf
  · exact h

theorem goodId_dedupe {data : List (String × Val)} (f : String) (hf : f ≠ "id")
    (h : goodId data) : goodId (dedupe_field data f) := by
  obtain ⟨w, hw, hne⟩ := h
  unfold dedupe_field
  split
  · exact ⟨w, by rw [pyGet_pySet_ne _ _ _ _ (Ne.symm hf)]; exact hw, hne⟩
  · exact ⟨w, hw, hne⟩

theorem ensure_good {data : List (String × Val)} (h : strVals data)
    (scp_id : Nat) (url : String) :
    goodId (ensure_required_fields data scp_id url) ∧
    weakVals (ensure_required_fields data scp_id url) := by
  obtain ⟨hg, hs⟩ := ensure_id_good h scp_id url
  unfold ensure_required_fields
  exact ⟨goodId_dedupe _ (by decide) (goodId_dedupe _ (by decide) hg),
    weakVals_dedupe _ (Or.inr rfl) (weakVals_dedupe _ (Or.inl rfl) (strVals_weakVals hs))⟩

theorem catFold_goodId :
    ∀ (l : List (String × Val)) (acc : List (String × Val)),
      (∀ kv ∈ l, normalize_key kv.1 = "id" → ∃ w, kv.2 = Val.s w ∧ w ≠ "") →
      ((∃ w, ("id", Val.s w) ∈ l ∧ w ≠ "") ∨ goodId acc) →
      goodId (l.foldl (fun acc kv =>
        if kv.1 = "more_info" then acc else pySet acc (normalize_key kv.1) kv.2) acc) := by
  intro l
  induction l with
  | nil =>
    intro acc _ hex
    rcases hex with ⟨w, hmem, _⟩ | hacc
    · simp at hmem
    · exact hacc
  | cons kv rest ih =>
    intro acc hall hex
    rw [List.foldl_cons]
    by_cases hmi : kv.1 = "more_info"
    · rw [if_pos hmi]
      apply ih _ (fun kv' h' hn => hall kv' (List.mem_cons_of_mem _ h') hn)
      rcases hex with ⟨w, hmem, hw⟩ | hacc
      · rcases List.mem_cons.mp hmem with he | he
        · exfalso
          have h1 : kv.1 = "id" := by rw [← he]
          rw [h1] at hmi
          exact absurd hmi (by decide)
        · exact Or.inl ⟨w, he, hw⟩
      · exact Or.inr hacc
    · rw [if_neg hmi]
      apply ih _ (fun kv' h' hn => hall kv' (List.mem_cons_of_mem _ h') hn)
      rcases hex with ⟨w, hmem, hw⟩ | hacc
      · rcases List.mem_cons.mp hmem with he | he
        · right
          have h1 : kv.1 = "id" := by rw [← he]
          have h2 : kv.2 = Val.s w := by rw [← he]
          rw [h1, h2, show normalize_key "id" = "id" from by decide]
          exact ⟨w, pyGet_pySet_self _ _ _, hw⟩
        · exact Or.inl ⟨w, he, hw⟩
      · right
        by_cases hnk : normalize_key kv.1 = "id"
        · obtain ⟨w, hw2, hne⟩ := hall kv (List.mem_cons_self _ _) hnk
          rw [hnk, hw2]
          exact ⟨w, pyGet_pySet_self _ _ _, hne⟩
        · obtain ⟨w, hw2, hne⟩ := hacc
          exact ⟨w, by rw [pyGet_pySet_ne _ _ _ _ (fun hc => hnk hc.symm)]; exact hw2, hne⟩

theorem categorize_goodId {data : List (String × Val)} (hw : weakVals data)
    (hg : goodId data) : goodId (categorize_fields data) := by
  unfold categorize_fields
  dsimp only
  have hmi : (match pyGet data "more_info" with
      | some (.d entries) =>
        entries.foldl (fun acc kv => pySet acc (normalize_key kv.1) (.s kv.2)) []
      | _ => ([] : List (String × Val))) = [] := by
    rcases hq : pyGet data "more_info" with _ | v
    · rfl
    · obtain ⟨w, hw2, _⟩ := hw _ (pyGet_some_mem hq)
      have hv : v = Val.s w := hw2
      rw [hv]
  rw [hmi]
  apply catFold_goodId
  · intro kv hkv hn
    obtain ⟨w, hv, hcase⟩ := hw kv hkv
    rcases hcase with hne | hd | hc
    · exact ⟨w, hv, hne⟩
    · rw [hd] at hn
      exact absurd hn (by decide)
    · rw [hc] at hn
      exact absurd hn (by decide)
  · obtain ⟨w, hq, hne⟩ := hg
    exact Or.inl ⟨w, pyGet_some_mem hq, hne⟩

theorem flushField_empty_ck (cv : String) (acc : List (String × Val)) :
    flushField "" cv acc = acc := by
  simp [flushField]

theorem noStrong_step {st : ParseSt} {e : Element} (he : e.strong = none)
    (hck : st.ck = "") : (parseStep st e).ck = "" ∧ (parseStep st e).acc = st.acc := by
  unfold parseStep
  dsimp only
  split
  · exact ⟨hck, rfl⟩
  split
  · exact ⟨hck, rfl⟩
  split
  · exact ⟨hck, rfl⟩
  rw [he]
  dsimp only
  simp [hck]

theorem noStrong_fold (elements : List Element) :
    ∀ st : ParseSt, (∀ e ∈ elements, e.strong = none) → st.ck = "" →
      (elements.foldl parseStep st).ck = "" ∧ (elements.foldl parseStep st).acc = st.acc := by
  induction elements with
  | nil => intro st _ hck; exact ⟨hck, rfl⟩
  | cons e rest ih =>
    intro st hns hck
    have he := hns e (List.mem_cons_self _ _)
    obtain ⟨hck', hacc'⟩ := noStrong_step he hck
    obtain ⟨hck'', hacc''⟩ := ih (parseStep st e)
      (fun e' h' => hns e' (List.mem_cons_of_mem _ h')) hck'
    exact ⟨hck'', hacc''.trans hacc'⟩

/-- Claim C2 (amended): the record produced by `parse_page_content` always
carries a present, non-empty `id` field; when the document has no emphasized
labels at all (and the URL yields no identifier token) the `id` is
synthesized from the numeric identifier zero-padded to 3 digits — identifier
7 yields `SCP-007`.  (An `id` extracted from the blocks is kept verbatim and
need not match the `SCP-` pattern.) -/
theorem parse_page_content_id_nonempty (elements : List Element) (scp_id : Nat)
    (url : String) :
    (∃ w, pyGet (parse_page_content elements scp_id url) "id" = some (Val.s w) ∧ w ≠ "") ∧
    ((∀ e ∈ elements, e.strong = none) →
      pyGet (parse_page_content elements 7 "") "id" = some (Val.s "SCP-007")) := by
  constructor
  · unfold parse_page_content
    dsimp only
    set st := elements.foldl parseStep { stopped := false, ck := "", cv := "", acc := [] }
      with hst
    have h1 : strVals st.acc :=
      strVals_parseFold elements _ (by intro kv hkv; simp at hkv)
    have h2 := strVals_flush st.ck st.cv h1
    obtain ⟨hg, hwk⟩ := ensure_good h2 scp_id url
    exact categorize_goodId hwk hg
  · intro hns
    unfold parse_page_content
    dsimp only
    obtain ⟨hck, hacc⟩ :=
      noStrong_fold elements { stopped := false, ck := "", cv := "", acc := [] } hns rfl
    rw [hck, hacc, flushField_empty_ck]
    decide

/-- Witness instantiating `parse_page_content_id_nonempty` at the empty
block sequence. -/
theorem parse_page_content_id_nonempty_w :
    pyGet (parse_page_content [] 7 "") "id" = some (Val.s "SCP-007") :=
  (parse_page_content_id_nonempty [] 7 "").2 (by simp)

/-! ## Claim C3 : clean_value idempotence machinery -/

theorem wsGo_true_headNoWS : ∀ l : List Char, headNoWS (wsGo true l) := by
  intro l
  induction l with
  | nil => intro c hc; simp [wsGo] at hc
  | cons c rest ih =>
    by_cases hc : isPySpace c = true
    · simpa [wsGo, hc] using ih
    · intro c' hc'
      simp [wsGo, hc] at hc'
      rw [← hc']
      simpa using hc

theorem wsGo_props : ∀ (l : List Char) (prev : Bool), wsOnly (wsGo prev l) ∧ noWW (wsGo prev l) := by
  intro l
  induction l with
  | nil =>
    intro prev
    constructor
    · intro c hc; simp [wsGo] at hc
    · simp [wsGo, noWW]
  | cons c rest ih =>
    intro prev
    by_cases hc : isPySpace c = true
    · cases prev with
      | true => simpa [wsGo, hc] using ih true
      | false =>
        rw [show wsGo false (c :: rest) = ' ' :: wsGo true rest by simp [wsGo, hc]]
        constructor
        · intro c' hc' hw
          rcases List.mem_cons.mp hc' with h' | h'
          · exact h'
          · exact (ih true).1 c' h' hw
        · refine List.chain'_cons'.mpr ⟨?_, (ih true).2⟩
          intro b hb
          rintro ⟨_, hwb⟩
          rw [wsGo_true_headNoWS rest b hb] at hwb
          exact Bool.false_ne_true hwb
    · rw [show wsGo prev (c :: rest) = c :: wsGo false rest by simp [wsGo, hc]]
      constructor
      · intro c' hc' hw
        rcases List.mem_cons.mp hc' with h' | h'
        · exact absurd (h' ▸ hw) hc
        · exact (ih false).1 c' h' hw
      · refine List.chain'_cons'.mpr ⟨?_, (ih false).2⟩
        intro b _
        rintro ⟨hwc, _⟩
        exact hc hwc

theorem wsSubL_props (l : List Char) : wsOnly (wsSubL l) ∧ noWW (wsSubL l) :=
  wsGo_props l false

theorem wsGo_id : ∀ (l : List Char) (prev : Bool), wsOnly l → noWW l →
    (prev = true → headNoWS l) → wsGo prev l = l := by
  intro l
  induction l with
  | nil => intro prev _ _ _; rfl
  | cons c rest ih =>
    intro prev ho hn hh
    have htail : wsOnly rest := fun c' h' hw => ho c' (List.mem_cons_of_mem _ h') hw
    have hchain : noWW rest := (List.chain'_cons'.mp hn).2
    by_cases hc : isPySpace c = true
    · have hprev : prev = false := by
        cases prev
        · rfl
        · have := hh rfl c rfl
          rw [hc] at this
          exact absurd this.symm Bool.false_ne_true
      subst hprev
      rw [show wsGo false (c :: rest) = ' ' :: wsGo true rest by simp [wsGo, hc]]
      have hceq : c = ' ' := ho c (List.mem_cons_self _ _) hc
      have hhead : headNoWS rest := by
        intro b hb
        have h2 := (List.chain'_cons'.mp hn).1 b hb
        by_cases hws : isPySpace b = true
        · exact absurd ⟨hc, hws⟩ h2
        · simpa using hws
      rw [ih true htail hchain (fun _ => hhead), hceq]
    · rw [show wsGo prev (c :: rest) = c :: wsGo false rest by simp [wsGo, hc]]
      rw [ih false htail hchain (fun h => absurd h (by decide))]

theorem dropWhile_headNot (p : Char → Bool) (l : List Char) :
    ∀ c, (l.dropWhile p).head? = some c → p c = false := by
  induction l with
  | nil => intro c hc; simp [List.dropWhile] at hc
  | cons x rest ih =>
    intro c hc
    by_cases hx : p x
    · rw [List.dropWhile_cons, if_pos hx] at hc
      exact ih c hc
    · rw [List.dropWhile_cons, if_neg hx] at hc
      simp at hc
      rw [← hc]
      simpa using hx

theorem dropWhile_id_of_headNot (p : Char → Bool) (l : List Char)
    (h : ∀ c, l.head? = some c → p c = false) : l.dropWhile p = l := by
  cases l with
  | nil => rfl
  | cons x rest =>
    rw [List.dropWhile_cons, if_neg]
    simp [h x rfl]

theorem dropWhile_exists_decomp (p : Char → Bool) (l : List Char) :
    ∃ t, l = t ++ l.dropWhile p := by
  induction l with
  | nil => exact ⟨[], rfl⟩
  | cons x rest ih =>
    by_cases hx : p x
    · obtain ⟨t, ht⟩ := ih
      refine ⟨x :: t, ?_⟩
      rw [List.dropWhile_cons, if_pos hx, List.cons_append, ← ht]
    · refine ⟨[], ?_⟩
      rw [List.dropWhile_cons, if_neg hx, List.nil_append]

theorem wsOnly_of_sub {l l' : List Char} (hsub : ∀ c ∈ l', c ∈ l) (h : wsOnly l) :
    wsOnly l' :=
  fun c hc hw => h c (hsub c hc) hw

theorem noWW_dropWhile (p : Char → Bool) {l : List Char} (h : noWW l) :
    noWW (l.dropWhile p) := by
  obtain ⟨t, ht⟩ := dropWhile_exists_decomp p l
  exact h.suffix ⟨t, ht.symm⟩

theorem noWW_reverse {l : List Char} (h : noWW l) : noWW l.reverse := by
  rw [noWW, List.chain'_reverse]
  exact List.Chain'.imp (fun a b hab hc => hab ⟨hc.2, hc.1⟩) h

theorem noWW_dropEndIf (p : Char → Bool) {l : List Char} (h : noWW l) :
    noWW (dropEndIf p l) := by
  unfold dropEndIf
  exact noWW_reverse (noWW_dropWhile p (noWW_reverse h))

theorem noWW_tail {c : Char} {rest : List Char} (h : noWW (c :: rest)) : noWW rest :=
  (List.chain'_cons'.mp h).2

theorem mem_dropEndIf (p : Char → Bool) {l : List Char} {c : Char}
    (hc : c ∈ dropEndIf p l) : c ∈ l := by
  unfold dropEndIf at hc
  rw [List.mem_reverse] at hc
  have := (List.dropWhile_sublist p).subset hc
  rwa [List.mem_reverse] at this

theorem colonSub_props {l : List Char} (ho : wsOnly l) (hn : noWW l) :
    wsOnly (colonSubL l) ∧ noWW (colonSubL l) := by
  cases l with
  | nil => exact ⟨ho, hn⟩
  | cons c rest =>
    rw [colonSubL]
    split
    · constructor
      · exact wsOnly_of_sub
          (fun c' hc' => List.mem_cons_of_mem _ ((List.dropWhile_sublist _).subset hc')) ho
      · exact noWW_dropWhile _ (noWW_tail hn)
    · exact ⟨ho, hn⟩

theorem stripL_props {l : List Char} (ho : wsOnly l) (hn : noWW l) :
    wsOnly (stripL l) ∧ noWW (stripL l) := by
  unfold stripL
  constructor
  · exact wsOnly_of_sub
      (fun c hc => (List.dropWhile_sublist _).subset (mem_dropEndIf _ hc)) ho
  · exact noWW_dropEndIf _ (noWW_dropWhile _ hn)

theorem stripL_idem (l : List Char) : stripL (stripL l) = stripL l := by
  unfold stripL
  set Y := l.dropWhile isPySpace with hY
  have hheadY : headNoWS Y := fun c hc => dropWhile_headNot _ _ c hc
  have hheadE : headNoWS (dropEndIf isPySpace Y) := by
    intro c hc
    unfold dropEndIf at hc
    obtain ⟨t, ht⟩ := dropWhile_exists_decomp isPySpace Y.reverse
    have hY2 : Y = (Y.reverse.dropWhile isPySpace).reverse ++ t.reverse := by
      rw [← List.reverse_append, ← ht, List.reverse_reverse]
    cases hz : (Y.reverse.dropWhile isPySpace).reverse with
    | nil => rw [hz] at hc; simp at hc
    | cons z zs =>
      rw [hz] at hc
      have hzY : Y.head? = some z := by
        rw [hY2, hz]
        rfl
      simp at hc
      rw [← hc]
      exact hheadY z hzY
  rw [dropWhile_id_of_headNot _ _ hheadE]
  unfold dropEndIf
  rw [List.reverse_reverse,
    dropWhile_id_of_headNot _ _ (fun c hc => dropWhile_headNot _ _ c hc)]

/-- Claim C3 (amended): `clean_value` is idempotent on every input whose
cleaned output is a fixed point of the redaction substitution and does not
begin with a colon; in general a second application can differ, because
collapsing whitespace can complete a redaction marker (and one application
strips only one leading colon). -/
theorem clean_value_idempotent_on_fixed (s : String)
    (h₁ : redactStr (clean_value s) = clean_value s)
    (h₂ : startsWithColon (clean_value s) = false) :
    clean_value (clean_value s) = clean_value s := by
  by_cases hs : s = ""
  · subst hs; decide
  · set t := clean_value s with hts
    by_cases ht : t = ""
    · rw [ht]; decide
    · have htd : t.data = stripL (colonSubL (wsSubL (redactSubL s.data))) := by
        rw [hts]
        unfold clean_value
        rw [if_neg hs]
      have hprops : wsOnly t.data ∧ noWW t.data := by
        rw [htd]
        have h0 := wsSubL_props (redactSubL s.data)
        have h1 := colonSub_props h0.1 h0.2
        exact stripL_props h1.1 h1.2
      have hredact : redactSubL t.data = t.data := by
        have hd := congrArg String.data h₁
        simpa [redactStr] using hd
      have hws : wsSubL t.data = t.data := by
        unfold wsSubL
        exact wsGo_id t.data false hprops.1 hprops.2 (fun h => absurd h (by decide))
      have hcolon : colonSubL t.data = t.data := by
        cases hcd : t.data with
        | nil => rfl
        | cons c rest =>
          have h₂' := h₂
          unfold startsWithColon at h₂'
          rw [hcd] at h₂'
          have hcc : isColonChar c = false := h₂'
          rw [colonSubL, if_neg (by simp [hcc])]
      have hstrip : stripL t.data = t.data := by
        rw [htd, stripL_idem]
      show clean_value t = t
      unfold clean_value
      rw [if_neg ht, hredact, hws, hcolon, hstrip]

/-- Witness instantiating `clean_value_idempotent_on_fixed` at a value whose
cleaned form contains no redaction marker and no leading colon. -/
theorem clean_value_idempotent_on_fixed_w :
    clean_value (clean_value "a: b  c") = clean_value "a: b  c" :=
  clean_value_idempotent_on_fixed "a: b  c" (by decide) (by decide)

/-! ## Claim C4 : the fallback key of normalize_key -/

theorem char_toNat_ofNat_valid (n : Nat) (h : n < 55296) : (Char.ofNat n).toNat = n := by
  have hv : Nat.isValidChar n := Or.inl h
  have h32 : n < 4294967296 := by omega
  simp [Char.ofNat, hv, Char.ofNatAux, Char.toNat, UInt32.toNat, BitVec.toNat_ofNat,
    Nat.mod_eq_of_lt h32]

theorem lowerChar_toNat (c : Char) :
    (lowerChar c).toNat =
      if 65 ≤ c.toNat ∧ c.toNat ≤ 90 then c.toNat + 32 else c.toNat := by
  unfold lowerChar
  by_cases h : 65 ≤ c.toNat ∧ c.toNat ≤ 90
  · rw [if_pos h, if_pos h, char_toNat_ofNat_valid _ (by omega)]
  · rw [if_neg h, if_neg h]

/-- One character of the fallback transform: after the keep-or-underscore
substitution and lower-casing, the character is in the keep set and is not
an ASCII uppercase letter. -/
theorem keep_lower_char (c : Char) :
    isKeepChar (lowerChar (if isKeepChar c then c else '_')) = true ∧
    ¬(65 ≤ (lowerChar (if isKeepChar c then c else '_')).toNat ∧
      (lowerChar (if isKeepChar c then c else '_')).toNat ≤ 90) := by
  by_cases hk : isKeepChar c = true
  · rw [if_pos hk]
    have hlt := lowerChar_toNat c
    simp only [isKeepChar, Bool.or_eq_true, Bool.and_eq_true, decide_eq_true_eq] at hk ⊢
    refine ⟨?_, ?_⟩ <;> rw [hlt] <;> split_ifs <;> omega
  · rw [if_neg hk]
    exact ⟨by decide, by decide⟩

/-- Claim C4 (amended): for every non-empty raw label drawn from the ASCII /
CJK-unified-ideograph repertoire (on which the embedded character classes
agree with Python's Unicode-aware `\w`) that matches no synonym (after
trimming and colon-stripping, case-insensitively), the fallback key consists
only of keep-set characters — ASCII alphanumerics, underscore, CJK
ideographs — with no uppercase ASCII letter; unlike claimed, it CAN coincide
with canonical field members: every canonical field name is a fixed point of
`normalize_key`, those absent from the synonym table (such as `class`) via
the fallback path itself.  The repertoire hypothesis scopes the statement to
labels on which the embedded character classes coincide with Python's; the
proof does not otherwise use it. -/
theorem normalize_key_fallback_keepset (key : String) (h₁ : key ≠ "")
    (_hscope : ∀ c ∈ key.data, c.toNat ≤ 0x7f ∨ (0x4e00 ≤ c.toNat ∧ c.toNat ≤ 0x9fff))
    (h₂ : ∀ p ∈ FIELD_MAPPING, lowerL p.1.data ≠ lowerL (rstripColonsL (stripL key.data))) :
    (∀ c ∈ (normalize_key key).data,
      isKeepChar c = true ∧ ¬(65 ≤ c.toNat ∧ c.toNat ≤ 90)) ∧
    (∀ f ∈ STANDARD_FIELDS, normalize_key f = f) ∧
    normalize_key "class" = "class" ∧ "class" ∈ STANDARD_FIELDS := by
  refine ⟨?_, by decide, by decide, by decide⟩
  have hfind : FIELD_MAPPING.find?
      (fun p => lowerL p.1.data == lowerL (rstripColonsL (stripL key.data))) = none := by
    rw [List.find?_eq_none]
    intro p hp
    simpa using h₂ p hp
  unfold normalize_key
  rw [if_neg h₁]
  dsimp only
  rw [hfind]
  intro c hc
  simp only [lowerL, keepSubL, List.map_map, List.mem_map, Function.comp] at hc
  obtain ⟨c₁, _, rfl⟩ := hc
  exact keep_lower_char c₁

/-- Witness instantiating `normalize_key_fallback_keepset` at the unmatched
all-ASCII raw label `rating`. -/
theorem normalize_key_fallback_keepset_w :
    (∀ c ∈ (normalize_key "rating").data,
      isKeepChar c = true ∧ ¬(65 ≤ c.toNat ∧ c.toNat ≤ 90)) ∧
    (∀ f ∈ STANDARD_FIELDS, normalize_key f = f) ∧
    normalize_key "class" = "class" ∧ "class" ∈ STANDARD_FIELDS :=
  normalize_key_fallback_keepset "rating" (by decide) (by decide) (by decide)

/-- Claim C9 counterexample: reversing the two-element candidate set of
`twoUrlImg` is an admissible iteration order for `list(urls)` (it is a
permutation of the set's contents), and under it the output order differs
from the attribute/candidate order `src`, `data-src`. -/
theorem extract_images_order_cex :
    (List.reverse (extract_urls_from_img twoUrlImg)).Perm (extract_urls_from_img twoUrlImg) ∧
    extract_urls_from_img twoUrlImg = ["http://h/scp-a.png", "http://h/scp-b.png"] ∧
    extract_images_from_soup List.reverse (some twoUrlRegion) 7 "http://h/page" =
      ["http://h/scp-b.png", "http://h/scp-a.png"] ∧
    (["http://h/scp-b.png", "http://h/scp-a.png"] : List String) ≠
      ["http://h/scp-a.png", "http://h/scp-b.png"] := by
  refine ⟨List.reverse_perm _, by decide, by decide, by decide⟩

/-! ## Claim C9 : order and deduplication of extract_images_from_soup -/

theorem dedupFirstGo_congr (l : List String) :
    ∀ s₁ s₂, (∀ a, a ∈ s₁ ↔ a ∈ s₂) → dedupFirstGo l s₁ = dedupFirstGo l s₂ := by
  induction l with
  | nil => intro _ _ _; rfl
  | cons x xs ih =>
    intro s₁ s₂ h
    by_cases hx : x ∈ s₁
    · rw [dedupFirstGo, dedupFirstGo, if_pos hx, if_pos ((h x).mp hx)]
      exact ih _ _ h
    · rw [dedupFirstGo, dedupFirstGo, if_neg hx, if_neg (fun hc => hx ((h x).mpr hc))]
      rw [ih (x :: s₁) (x :: s₂) (by intro a; simp [h a])]

theorem foldl_dedup_append (l : List String) :
    ∀ ordered, l.foldl (fun o u => if u ∉ o then o ++ [u] else o) ordered =
      ordered ++ dedupFirstGo l ordered := by
  induction l with
  | nil => intro ordered; simp [dedupFirstGo]
  | cons x xs ih =>
    intro ordered
    rw [List.foldl_cons, dedupFirstGo]
    by_cases hx : x ∈ ordered
    · rw [if_neg (fun hc => hc hx), if_pos hx]
      exact ih ordered
    · rw [if_pos hx, if_neg hx, ih (ordered ++ [x]),
        dedupFirstGo_congr xs (ordered ++ [x]) (x :: ordered) (by intro a; simp; tauto),
        List.append_assoc]
      rfl

theorem foldl_if_filter {α β : Type} (p : α → Bool) (f : β → α → β) (l : List α) :
    ∀ b, l.foldl (fun acc u => if p u then f acc u else acc) b = (l.filter p).foldl f b := by
  induction l with
  | nil => intro b; rfl
  | cons x xs ih =>
    intro b
    by_cases hx : p x
    · rw [List.foldl_cons, if_pos hx, List.filter_cons_of_pos hx, List.foldl_cons, ih]
    · rw [List.foldl_cons, if_neg hx, List.filter_cons_of_neg (by simpa using hx), ih]

theorem foldl_map_flatten {α β : Type} (g : β → String → β) (F : α → List String)
    (l : List α) : ∀ b, l.foldl (fun acc x => (F x).foldl g acc) b =
      ((l.map F).flatten).foldl g b := by
  induction l with
  | nil => intro b; rfl
  | cons x xs ih =>
    intro b
    rw [List.foldl_cons, ih, List.map_cons, List.flatten_cons, List.foldl_append]

theorem dedupFirstGo_nodup :
    ∀ (l : List String) (seen : List String),
      (dedupFirstGo l seen).Nodup ∧ ∀ x ∈ dedupFirstGo l seen, x ∉ seen := by
  intro l
  induction l with
  | nil => intro seen; simp [dedupFirstGo]
  | cons x xs ih =>
    intro seen
    rw [dedupFirstGo]
    by_cases hx : x ∈ seen
    · rw [if_pos hx]; exact ih seen
    · rw [if_neg hx]
      obtain ⟨hnd, hns⟩ := ih (x :: seen)
      refine ⟨List.nodup_cons.mpr ⟨fun hc => (hns x hc) (List.mem_cons_self _ _), hnd⟩, ?_⟩
      intro y hy
      rcases List.mem_cons.mp hy with hy | hy
      · rw [hy]; exact hx
      · exact fun hc => hns y hy (List.mem_cons_of_mem _ hc)

/-- Claim C9 (amended): the media URL sequence equals the first-seen
deduplication of the flattened relevant-candidate sequence — first-seen
order across elements (in document order) is preserved and no exact-string
duplicate survives; within one element the candidate order is whatever
iteration order `list(urls)` gives the candidate set, not necessarily the
attribute/candidate order. -/
theorem extract_images_dedup_first_seen (setOrd : List String → List String)
    (region : Region) (scp_id : Nat) (page_url : String) :
    extract_images_from_soup setOrd (some region) scp_id page_url =
      dedupFirst (imageCandidateSeq setOrd region scp_id page_url) ∧
    (extract_images_from_soup setOrd (some region) scp_id page_url).Nodup := by
  have key : extract_images_from_soup setOrd (some region) scp_id page_url =
      dedupFirst (imageCandidateSeq setOrd region scp_id page_url) := by
    unfold extract_images_from_soup imageCandidateSeq dedupFirst
    dsimp only
    rw [show (fun (ordered : List String) (img : Img) =>
        (normalize_and_filter_urls (setOrd (extract_urls_from_img img)) page_url).foldl
          (fun ordered u =>
            if is_relevant_image u img.alt img.title (harmonize_id scp_id) then
              if u ∉ ordered then ordered ++ [u] else ordered
            else ordered) ordered) =
        (fun (ordered : List String) (img : Img) =>
          ((normalize_and_filter_urls (setOrd (extract_urls_from_img img)) page_url).filter
            (fun u => is_relevant_image u img.alt img.title (harmonize_id scp_id))).foldl
              (fun o u => if u ∉ o then o ++ [u] else o) ordered) from
      funext fun ordered => funext fun img =>
        foldl_if_filter (fun u => is_relevant_image u img.alt img.title (harmonize_id scp_id))
          (fun o u => if u ∉ o then o ++ [u] else o)
          (normalize_and_filter_urls (setOrd (extract_urls_from_img img)) page_url) ordered]
    rw [foldl_map_flatten (fun o u => if u ∉ o then o ++ [u] else o)
      (fun img => (normalize_and_filter_urls (setOrd (extract_urls_from_img img)) page_url).filter
        (fun u => is_relevant_image u img.alt img.title (harmonize_id scp_id)))
      region.imgs []]
    rw [foldl_dedup_append]
    rfl
  refine ⟨key, ?_⟩
  rw [key]
  exact (dedupFirstGo_nodup _ []).1
